import Mathlib

/-!
Shallow embedding of the `BitFlags` Rust library (`src/lib.rs`).

`BitFlag<T>` wraps a single scalar `val : T`, where `T` is a fixed-width
unsigned integer type of bit width `w` (`w ∈ {8, 16, 32, 64, 128}` for the
supported primitives).  Since the container has exactly one field and no
further invariants, a container state is modelled as the natural number
`val`, always kept below `2 ^ w`; mutating methods become functions from
the old `val` to the new `val`, parameterised by the width `w`.
Machine arithmetic is modelled on `Nat` with explicit reduction `% 2 ^ w`.
-/

namespace BitFlags

/-- `BitFlag::size()`: `std::mem::size_of::<T>() * 8`, the bit width of the
storage type, here the parameter `w`. -/
def size (w : Nat) : Nat := w

/-- `BitFlag::new()`: the default container, scalar zero. -/
def new : Nat := 0

/-- `BitFlag::new_with_value(val)`: wraps the supplied scalar verbatim. -/
def new_with_value (val : Nat) : Nat := val

/-- `BitFlag::raw()`: returns the stored scalar. -/
def raw (val : Nat) : Nat := val

/-- `BitFlag::is_overflow(pos)`: `pos >= T::from(Self::size() as u8)`.
For every supported width (8–128) the `as u8` cast is lossless, so this is
`pos ≥ w`. -/
def is_overflow (w pos : Nat) : Bool := decide (size w ≤ pos)

/-- The mask `T::from(1_u8) << pos` of `set_unchecked`/`get_unchecked`,
computed on the `w`-bit storage type.  (Rust leaves a shift by `pos ≥ w`
unspecified for primitive types; the checked entry points only reach the
unchecked ones with `pos < w`, where `(1 <<< pos) % 2 ^ w = 2 ^ pos`
is exact.) -/
def mask (w pos : Nat) : Nat := (1 <<< pos) % 2 ^ w

/-- `BitFlag::invert(val)`: `!val`, bitwise complement on the `w`-bit type. -/
def invert (w val : Nat) : Nat := val ^^^ (2 ^ w - 1)

/-- `BitFlag::set_unchecked(pos, val)`: `mask = 1 << pos`; OR the mask in
when `val` is true, otherwise AND with the inverted mask. -/
def set_unchecked (w s pos : Nat) (val : Bool) : Nat :=
  if val then s ||| mask w pos else s &&& invert w (mask w pos)

/-- `BitFlag::set(pos, val)`: silent no-op on overflow, otherwise
delegates to `set_unchecked`. -/
def set (w s pos : Nat) (val : Bool) : Nat :=
  if is_overflow w pos then s else set_unchecked w s pos val

/-- `BitFlag::get_unchecked(pos)`: `(val & (1 << pos)) != 0`. -/
def get_unchecked (w s pos : Nat) : Bool :=
  decide (s &&& mask w pos ≠ 0)

/-- `BitFlag::get(pos)`: false on overflow, otherwise `get_unchecked`. -/
def get (w s pos : Nat) : Bool :=
  if is_overflow w pos then false else get_unchecked w s pos

/-- `BitFlag::set_range_unchecked(range, val)`: for `(i, flag_pos)` in
`(range.0..=range.1).enumerate()`, set bit `flag_pos` of `self` to bit `i`
of the source container `val`.  The iterator `start..=stop` yields
`stop + 1 - start` positions `start, start + 1, …, stop` (none when
`start > stop`), so `flag_pos = start + i`. -/
def set_range_unchecked (w s start stop v : Nat) : Nat :=
  (List.range (stop + 1 - start)).foldl
    (fun acc i => set_unchecked w acc (start + i) (get_unchecked w v i)) s

/-- `BitFlag::set_range(range, val)`: silent no-op when `range.0 > range.1`
or `is_overflow(range.1)`, otherwise delegates to `set_range_unchecked`. -/
def set_range (w s start stop v : Nat) : Nat :=
  if decide (stop < start) || is_overflow w stop then s
  else set_range_unchecked w s start stop v

/-- `BitFlag::get_range_unchecked(range)`: starting from a fresh
`BitFlag::new()`, copy bit `flag_pos = start + i` of `self` into bit `i`
of the copy, for `(i, flag_pos)` in `(range.0..=range.1).enumerate()`;
return the copy's scalar. -/
def get_range_unchecked (w s start stop : Nat) : Nat :=
  (List.range (stop + 1 - start)).foldl
    (fun acc i => set_unchecked w acc i (get_unchecked w s (start + i))) new

/-- `BitFlag::get_range(range)`: `None` when `range.0 > range.1` or
`is_overflow(range.1)`, otherwise `Some` of the unchecked extraction. -/
def get_range (w s start stop : Nat) : Option Nat :=
  if decide (stop < start) || is_overflow w stop then none
  else some (get_range_unchecked w s start stop)

/-- `BitFlag::len()`: the number of positions in `0..size()` whose bit is
set, computed by `filter`/`count` over `get_unchecked`. -/
def len (w s : Nat) : Nat :=
  ((List.range (size w)).filter (fun i => get_unchecked w s i)).length

/-- `BitFlag::iter()`: the sequence of `size()` booleans
`get_unchecked(i)` for `i` in `0..size()`, in ascending order. -/
def iter (w s : Nat) : List Bool :=
  (List.range (size w)).map (fun i => get_unchecked w s i)

/-- `BitFlag::is_empty()`: the scalar equals zero. -/
def is_empty (s : Nat) : Bool := decide (0 = s)

/-- `BitFlag::clear()`: resets the scalar to `T::default()`. -/
def clear : Nat := 0

/-- `impl Add for BitFlag<T>`: `Self::new_with_value(self.val.add(rhs.val))`,
the storage type's own addition, which wraps around at `2 ^ w`. -/
def add (w a b : Nat) : Nat := new_with_value ((raw a + raw b) % 2 ^ w)

/-! ### Bit-level characterisation lemmas -/

theorem mask_eq {w pos : Nat} (h : pos < w) : mask w pos = 2 ^ pos := by
  unfold mask
  rw [Nat.one_shiftLeft]
  exact Nat.mod_eq_of_lt (Nat.pow_lt_pow_right (by omega) h)

theorem get_unchecked_eq_testBit {w pos : Nat} (s : Nat) (h : pos < w) :
    get_unchecked w s pos = s.testBit pos := by
  unfold get_unchecked
  rw [mask_eq h, Nat.and_two_pow]
  cases hb : s.testBit pos <;> simp [hb, Nat.pow_eq_zero]

theorem set_unchecked_true (w s pos : Nat) :
    set_unchecked w s pos true = s ||| mask w pos := by
  simp [set_unchecked]

theorem set_unchecked_false (w s pos : Nat) :
    set_unchecked w s pos false = s &&& invert w (mask w pos) := by
  simp [set_unchecked]

theorem get_set_unchecked {w p q : Nat} (s : Nat) (b : Bool)
    (hp : p < w) (hq : q < w) :
    get_unchecked w (set_unchecked w s p b) q =
      if q = p then b else get_unchecked w s q := by
  cases b with
  | true =>
      rw [set_unchecked_true, get_unchecked_eq_testBit _ hq, Nat.testBit_or,
        mask_eq hp, Nat.testBit_two_pow]
      by_cases h : q = p
      · simp [h]
      · simp [h, Ne.symm h, get_unchecked_eq_testBit _ hq]
  | false =>
      rw [set_unchecked_false, invert, get_unchecked_eq_testBit _ hq,
        Nat.testBit_and, Nat.testBit_xor, mask_eq hp, Nat.testBit_two_pow,
        Nat.testBit_two_pow_sub_one]
      by_cases h : q = p
      · simp [h, hp]
      · simp [h, Ne.symm h, hq, get_unchecked_eq_testBit _ hq]

theorem set_unchecked_lt {w s : Nat} (pos : Nat) (b : Bool) (hs : s < 2 ^ w) :
    set_unchecked w s pos b < 2 ^ w := by
  cases b with
  | true =>
      rw [set_unchecked_true]
      exact Nat.or_lt_two_pow hs (Nat.mod_lt _ (Nat.pos_pow_of_pos w (by omega)))
  | false =>
      rw [set_unchecked_false]
      exact Nat.lt_of_le_of_lt Nat.and_le_left hs

theorem get_unchecked_zero {w pos : Nat} : get_unchecked w 0 pos = false := by
  simp [get_unchecked]

/-- Bits of the state after folding `set_unchecked` over `base + i` for
`i < n`: inside the window `[base, base + n)` the written boolean is read
back, outside it the original bit is unchanged. -/
theorem get_foldl_set {w : Nat} (f : Nat → Bool) (base : Nat) :
    ∀ (n : Nat) (s q : Nat), q < w → base + n ≤ w →
      get_unchecked w
        ((List.range n).foldl
          (fun acc i => set_unchecked w acc (base + i) (f i)) s) q =
        if base ≤ q ∧ q < base + n then f (q - base) else get_unchecked w s q := by
  intro n
  induction n with
  | zero =>
      intro s q hq _
      rw [List.range_zero, List.foldl_nil, if_neg (by omega)]
  | succ n ih =>
      intro s q hq hn
      rw [List.range_succ, List.foldl_append, List.foldl_cons, List.foldl_nil]
      rw [get_set_unchecked _ _ (by omega) hq]
      by_cases h : q = base + n
      · simp [h]
      · rw [if_neg h, ih s q hq (by omega)]
        by_cases h1 : base ≤ q ∧ q < base + n
        · rw [if_pos h1, if_pos ⟨h1.1, by omega⟩]
        · rw [if_neg h1, if_neg (by omega)]

/-- Folding `set_unchecked` keeps the scalar inside the storage width. -/
theorem foldl_set_lt {w : Nat} (f : Nat → Bool) (g : Nat → Nat) :
    ∀ (l : List Nat) (s : Nat), s < 2 ^ w →
      l.foldl (fun acc i => set_unchecked w acc (g i) (f i)) s < 2 ^ w := by
  intro l
  induction l with
  | nil => intro s hs; simpa using hs
  | cons a l ih =>
      intro s hs
      rw [List.foldl_cons]
      exact ih _ (set_unchecked_lt _ _ hs)

theorem is_overflow_false {w pos : Nat} (h : pos < size w) :
    is_overflow w pos = false := by
  simp only [is_overflow, decide_eq_false_iff_not]
  omega

theorem is_overflow_true {w pos : Nat} (h : size w ≤ pos) :
    is_overflow w pos = true := by
  simp only [is_overflow, decide_eq_true_eq]
  omega

/-- Bits of the state after `set_range_unchecked`: positions inside
`[start, stop]` take the source container's bit at the matching offset,
positions outside keep the original bit. -/
theorem get_set_range_unchecked {w start stop q : Nat} (s v : Nat)
    (h1 : start ≤ stop) (h2 : stop < w) (hq : q < w) :
    get_unchecked w (set_range_unchecked w s start stop v) q =
      if start ≤ q ∧ q ≤ stop then get_unchecked w v (q - start)
      else get_unchecked w s q := by
  unfold set_range_unchecked
  rw [get_foldl_set (fun i => get_unchecked w v i) start (stop + 1 - start) s q hq
    (by omega)]
  by_cases hcond : start ≤ q ∧ q ≤ stop
  · rw [if_pos (by omega), if_pos hcond]
  · rw [if_neg (by omega), if_neg hcond]

theorem get_range_unchecked_lt (w s start stop : Nat) :
    get_range_unchecked w s start stop < 2 ^ w := by
  unfold get_range_unchecked new
  exact foldl_set_lt (fun i => get_unchecked w s (start + i)) (fun i => i) _ _
    (Nat.pos_pow_of_pos w (by omega))

/-- Bits of the extracted range value: bit `i` of the result is bit
`start + i` of the source for `i ≤ stop - start`, and zero above. -/
theorem get_range_unchecked_testBit {w start stop : Nat} (s : Nat)
    (h1 : start ≤ stop) (h2 : stop < w) (i : Nat) :
    (get_range_unchecked w s start stop).testBit i =
      (decide (i ≤ stop - start) && s.testBit (start + i)) := by
  by_cases hi : i < w
  · rw [← get_unchecked_eq_testBit _ hi]
    unfold get_range_unchecked
    have hfold := get_foldl_set (fun j => get_unchecked w s (start + j)) 0
      (stop + 1 - start) new i hi (by omega)
    simp only [Nat.zero_add, Nat.sub_zero] at hfold
    rw [hfold]
    by_cases hcond : i ≤ stop - start
    · rw [if_pos (by omega)]
      simp only [decide_eq_true hcond, Bool.true_and]
      exact get_unchecked_eq_testBit _ (by omega)
    · rw [if_neg (by omega)]
      simp [new, get_unchecked_zero, hcond]
  · rw [Nat.testBit_lt_two_pow
      (Nat.lt_of_lt_of_le (get_range_unchecked_lt w s start stop)
        (Nat.pow_le_pow_right (by omega) (by omega)))]
    have : ¬ i ≤ stop - start := by omega
    simp [this]

theorem set_eq_unchecked {w s p : Nat} (b : Bool) (hp : p < size w) :
    set w s p b = set_unchecked w s p b := by
  rw [set, is_overflow_false hp]
  simp

theorem get_eq_unchecked {w s p : Nat} (hp : p < size w) :
    get w s p = get_unchecked w s p := by
  rw [get, is_overflow_false hp]
  simp

theorem range_guard_false {w start stop : Nat} (h1 : start ≤ stop)
    (h2 : stop < size w) :
    (decide (stop < start) || is_overflow w stop) = false := by
  rw [is_overflow_false h2, Bool.or_false, decide_eq_false_iff_not]
  omega

theorem set_range_eq_unchecked {w s start stop v : Nat} (h1 : start ≤ stop)
    (h2 : stop < size w) :
    set_range w s start stop v = set_range_unchecked w s start stop v := by
  rw [set_range, range_guard_false h1 h2]
  simp

theorem get_range_eq_some {w s start stop : Nat} (h1 : start ≤ stop)
    (h2 : stop < size w) :
    get_range w s start stop = some (get_range_unchecked w s start stop) := by
  rw [get_range, range_guard_false h1 h2]
  simp

/-! ### Claim theorems -/

/-- Claim C1: for every storage width, every container state, and all bit
positions with `start ≤ stop < size()`, `set_range((start, stop), v)`
followed by `get_range((start, stop))` returns `some` of `v` masked to its
`stop - start + 1` low bits. -/
theorem set_range_get_range_roundtrip (w s start stop v : Nat)
    (h1 : start ≤ stop) (h2 : stop < size w) :
    get_range w (set_range w s start stop v) start stop =
      some (v % 2 ^ (stop - start + 1)) := by
  have h2' : stop < w := h2
  rw [set_range_eq_unchecked h1 h2, get_range_eq_some h1 h2]
  congr 1
  apply Nat.eq_of_testBit_eq
  intro i
  rw [get_range_unchecked_testBit _ h1 h2' i, Nat.testBit_mod_two_pow]
  by_cases hi : i ≤ stop - start
  · rw [decide_eq_true hi, Bool.true_and,
      decide_eq_true (show i < stop - start + 1 by omega), Bool.true_and]
    rw [← get_unchecked_eq_testBit _ (show start + i < w by omega),
      get_set_range_unchecked s v h1 h2' (by omega),
      if_pos ⟨by omega, by omega⟩,
      show start + i - start = i by omega,
      get_unchecked_eq_testBit _ (by omega)]
  · have h3 : ¬ i < stop - start + 1 := by omega
    simp [hi, h3]

theorem set_range_get_range_roundtrip_witness :
    2 ≤ 4 ∧ 4 < size 8 ∧
    get_range 8 (set_range 8 255 2 4 26) 2 4 = some (26 % 2 ^ (4 - 2 + 1)) :=
  ⟨by decide, by decide,
    set_range_get_range_roundtrip 8 255 2 4 26 (by decide) (by decide)⟩

/-- Claim C2: for every container state and every position `p ≥ size()`,
`get(p)` returns false, and `set(p, v)` for either boolean leaves the
stored raw value unchanged. -/
theorem overflow_safety (w s p : Nat) (b : Bool) (hp : size w ≤ p) :
    get w s p = false ∧ raw (set w s p b) = raw s := by
  constructor
  · rw [get, is_overflow_true hp]
    simp
  · rw [set, is_overflow_true hp]
    simp

theorem overflow_safety_witness :
    size 8 ≤ 8 ∧ get 8 0 8 = false ∧ raw (set 8 0 8 true) = raw 0 := by
  refine ⟨by decide, overflow_safety 8 0 8 true (by decide)⟩

/-- Claim C3: for every container state and every valid position
`p < size()`, `set(p, true)` then `get(p)` returns true, and
`set(p, false)` then `get(p)` returns false, regardless of prior
contents. -/
theorem set_then_get (w s p : Nat) (hp : p < size w) :
    get w (set w s p true) p = true ∧ get w (set w s p false) p = false := by
  have hp' : p < w := hp
  refine ⟨?_, ?_⟩ <;>
    rw [set_eq_unchecked _ hp, get_eq_unchecked hp,
      get_set_unchecked _ _ hp' hp', if_pos rfl]

theorem set_then_get_witness :
    5 < size 8 ∧ get 8 (set 8 46 5 true) 5 = true ∧
      get 8 (set 8 46 5 false) 5 = false :=
  ⟨by decide, set_then_get 8 46 5 (by decide)⟩

/-- Claim C4: for `start ≤ stop < size()`, `get_range((start, stop))`
returns `some` of a right-aligned extraction: bit `i` of the result equals
bit `start + i` of the stored scalar for `i ≤ stop - start`, all higher
bits are zero; in particular on a container holding `0b101110` (8-bit),
`get_range((1, 2))` is `some 0b11`. -/
theorem get_range_right_aligned (w s start stop : Nat)
    (h1 : start ≤ stop) (h2 : stop < size w) :
    get_range w s start stop = some (get_range_unchecked w s start stop) ∧
    (∀ i, i ≤ stop - start →
      (get_range_unchecked w s start stop).testBit i = s.testBit (start + i)) ∧
    (∀ i, stop - start < i →
      (get_range_unchecked w s start stop).testBit i = false) ∧
    get_range 8 0b101110 1 2 = some 0b11 := by
  have h2' : stop < w := h2
  refine ⟨get_range_eq_some h1 h2, ?_, ?_, by decide⟩
  · intro i hi
    rw [get_range_unchecked_testBit s h1 h2' i, decide_eq_true hi,
      Bool.true_and]
  · intro i hi
    rw [get_range_unchecked_testBit s h1 h2' i]
    simp [show ¬ i ≤ stop - start by omega]

theorem get_range_right_aligned_witness :
    1 ≤ 2 ∧ 2 < size 8 ∧
    (get_range_unchecked 8 46 1 2).testBit 1 = (46 : Nat).testBit 3 ∧
    (get_range_unchecked 8 46 1 2).testBit 5 = false ∧
    get_range 8 46 1 2 = some 3 :=
  ⟨by decide, by decide,
    (get_range_right_aligned 8 46 1 2 (by decide) (by decide)).2.1 1 (by decide),
    (get_range_right_aligned 8 46 1 2 (by decide) (by decide)).2.2.1 5 (by decide),
    (get_range_right_aligned 8 46 1 2 (by decide) (by decide)).2.2.2⟩

/-- Claim C5: for every container state and range, `get_range` returns
`none` and `set_range` leaves the raw value unchanged when `start > stop`
or `stop ≥ size()`; for all other ranges `get_range` returns `some` and
`set_range` performs the unchecked write. -/
theorem range_checked_guards (w s start stop v : Nat) :
    (stop < start ∨ size w ≤ stop →
      get_range w s start stop = none ∧
      raw (set_range w s start stop v) = raw s) ∧
    (start ≤ stop → stop < size w →
      get_range w s start stop = some (get_range_unchecked w s start stop) ∧
      set_range w s start stop v = set_range_unchecked w s start stop v) := by
  constructor
  · intro h
    have hg : (decide (stop < start) || is_overflow w stop) = true := by
      rcases h with h | h
      · simp [h]
      · simp [is_overflow_true h]
    rw [get_range, set_range, hg]
    simp
  · intro h1 h2
    exact ⟨get_range_eq_some h1 h2, set_range_eq_unchecked h1 h2⟩

theorem range_checked_guards_witness :
    ((3 < 3 ∨ size 8 ≤ 0) ∨
      (get_range 8 46 3 0 = none ∧ raw (set_range 8 46 3 0 7) = raw 46)) ∧
    (1 ≤ 2 ∧ 2 < size 8 ∧
      get_range 8 46 1 2 = some (get_range_unchecked 8 46 1 2) ∧
      set_range 8 46 1 2 7 = set_range_unchecked 8 46 1 2 7) :=
  ⟨Or.inr ((range_checked_guards 8 46 3 0 7).1 (Or.inl (by decide))),
    ⟨by decide, by decide,
      (range_checked_guards 8 46 1 2 7).2 (by decide) (by decide)⟩⟩

/-- Claim C6: addition of two containers is the arithmetic sum of the two
backing scalars modulo `2 ^ w` (wraparound addition inherited from the
storage type), not their bitwise OR; in particular
`new_with_value(3) + new_with_value(1)` has raw value 4. -/
theorem add_is_arithmetic (w a b : Nat) :
    raw (add w a b) = (raw a + raw b) % 2 ^ w ∧
    raw (add 8 (new_with_value 3) (new_with_value 1)) = 4 ∧
    raw (add 8 (new_with_value 3) (new_with_value 1)) ≠ (3 ||| 1) :=
  ⟨rfl, by decide, by decide⟩

/-- Claim C7: for every container state and every position `p < size()`
the checked operations agree with the unchecked ones: `set(p, v)` produces
the same state as `set_unchecked(p, v)` and `get(p)` the same boolean as
`get_unchecked(p)`. -/
theorem checked_matches_unchecked (w s p : Nat) (b : Bool) (hp : p < size w) :
    set w s p b = set_unchecked w s p b ∧ get w s p = get_unchecked w s p :=
  ⟨set_eq_unchecked b hp, get_eq_unchecked hp⟩

theorem checked_matches_unchecked_witness :
    2 < size 8 ∧ set 8 46 2 false = set_unchecked 8 46 2 false ∧
      get 8 46 2 = get_unchecked 8 46 2 :=
  ⟨by decide, checked_matches_unchecked 8 46 2 false (by decide)⟩

/-- Claim C8: `iter()` yields exactly `size()` booleans, the `i`-th being
the value of bit position `i` in ascending order, and `len()` equals the
number of true values in that sequence. -/
theorem iter_len_consistency (w s : Nat) :
    (iter w s).length = size w ∧
    (∀ i, i < size w → (iter w s).getD i false = get w s i) ∧
    len w s = (iter w s).count true := by
  refine ⟨by simp [iter], ?_, ?_⟩
  · intro i hi
    rw [iter, List.getD_eq_getElem?_getD, List.getElem?_map,
      List.getElem?_range hi, get_eq_unchecked hi]
    rfl
  · rw [len, iter, List.count_eq_countP, List.countP_map,
      List.countP_eq_length_filter]
    simp [Function.comp_def]

theorem iter_len_consistency_witness :
    (1 < size 8 ∧ (iter 8 46).getD 1 false = get 8 46 1) ∧
    len 8 46 = (iter 8 46).count true :=
  ⟨⟨by decide, (iter_len_consistency 8 46).2.1 1 (by decide)⟩,
    (iter_len_consistency 8 46).2.2⟩

/-- Claim C9: for every container state, valid position `p < size()` and
boolean `v`, `set(p, v)` leaves every other valid bit unchanged. -/
theorem set_frame (w s p q : Nat) (b : Bool) (hp : p < size w)
    (hq : q < size w) (hne : q ≠ p) :
    get w (set w s p b) q = get w s q := by
  have hp' : p < w := hp
  have hq' : q < w := hq
  rw [set_eq_unchecked _ hp, get_eq_unchecked hq, get_eq_unchecked hq,
    get_set_unchecked _ _ hp' hq', if_neg hne]

theorem set_frame_witness :
    2 < size 8 ∧ 3 < size 8 ∧ (3 : Nat) ≠ 2 ∧
    get 8 (set 8 46 2 true) 3 = get 8 46 3 :=
  ⟨by decide, by decide, by decide,
    set_frame 8 46 2 3 true (by decide) (by decide) (by decide)⟩

/-- Claim C10: for every container state, every range with
`start ≤ stop < size()` and every source value, `set_range((start, stop), v)`
leaves every valid bit outside the span unchanged. -/
theorem set_range_frame (w s start stop v q : Nat)
    (h1 : start ≤ stop) (h2 : stop < size w) (hq : q < size w)
    (hout : q < start ∨ stop < q) :
    get w (set_range w s start stop v) q = get w s q := by
  have h2' : stop < w := h2
  have hq' : q < w := hq
  rw [set_range_eq_unchecked h1 h2, get_eq_unchecked hq, get_eq_unchecked hq,
    get_set_range_unchecked s v h1 h2' hq', if_neg (by omega)]

theorem set_range_frame_witness :
    2 ≤ 4 ∧ 4 < size 8 ∧ 6 < size 8 ∧ (6 < 2 ∨ 4 < 6) ∧
    get 8 (set_range 8 46 2 4 31) 6 = get 8 46 6 :=
  ⟨by decide, by decide, by decide, Or.inr (by decide),
    set_range_frame 8 46 2 4 31 6 (by decide) (by decide) (by decide)
      (Or.inr (by decide))⟩

end BitFlags
